import Mathlib

set_option maxHeartbeats 1000000

/-!
Shallow embedding of the configuration layer of pyfcfc
(src/FCFC-main/src/fcfc/2pt_box/load_conf.c), covering the functions
check_output, conf_verify and load_conf, together with a spec-modelled
separation-bin check guarding the pair-counting entry point compute_cf
declared in src/FCFC-main/src/fcfc/2pt/fcfc.h.

Modelling conventions: C strings are lists of non-NUL characters, so the
character at an index past the end of the list plays the role of the NUL
terminator; C doubles are an explicit finite/infinite/NaN value over the
rationals (the code only applies isfinite and sign or order comparisons to
them); the file-system facts consulted through access(2) are boolean fields
of an OutFile record, and the interactive overwrite prompt is an abstract
answer carried by the same record; memory allocation (malloc/realloc) is
modelled as always succeeding.
-/

/-- Modelled from the spec: error codes live in define.h, which is not under
src/.  Their numeric values are unobservable in the embedded code; only their
distinctness and non-zero-ness matter.  This is the ConfigError code of the
spec's error taxonomy (§7). -/
def FCFC_ERR_CFG : Int := -3

/-- Modelled from the spec: the IOError code (define.h absent from src/). -/
def FCFC_ERR_FILE : Int := -4

/-- Modelled from the spec: the code returned by check_output to tell
conf_verify that an existing pair-count file will be read instead of
recomputed (define.h absent from src/). -/
def FCFC_ERR_SAVE : Int := -8

/-- Modelled from the spec: the memory-allocation error code (define.h absent
from src/).  Allocation is modelled as succeeding, so this code is never
produced by the embedded functions; it is kept for completeness. -/
def FCFC_ERR_MEMORY : Int := -1

/-- k-d tree identifier; its value is pinned by the tname table of conf_print
(load_conf.c line 1001), which indexes "k-d tree" at position 0. -/
def FCFC_STRUCT_KDTREE : Int := 0

/-- ball tree identifier; pinned by the tname table of conf_print. -/
def FCFC_STRUCT_BALLTREE : Int := 1

/-- isotropic separation binning; pinned by the bname table of conf_print
(load_conf.c line 1006), which indexes "s" at position 0. -/
def FCFC_BIN_ISO : Int := 0

/-- (s, mu) binning; pinned by the bname table of conf_print. -/
def FCFC_BIN_SMU : Int := 1

/-- (s_perp, pi) binning; pinned by the bname table of conf_print. -/
def FCFC_BIN_SPI : Int := 2

/-- binary output format; pinned by the sname table of conf_print. -/
def FCFC_OFMT_BIN : Int := 0

/-- ASCII output format; pinned by the sname table of conf_print. -/
def FCFC_OFMT_ASCII : Int := 1

/-- Modelled from the spec: overwrite level below which no existing file is
touched (define.h absent from src/).  The template text of conf_template lists
the levels in increasing order NONE, CFONLY, ALL, matching the order
comparisons performed by check_output. -/
def FCFC_OVERWRITE_NONE : Int := 0

/-- Modelled from the spec: overwrite level that overwrites 2PCF output files
but keeps existing pair-count files (define.h absent from src/). -/
def FCFC_OVERWRITE_CFONLY : Int := 1

/-- Modelled from the spec: force-overwrite threshold for pair-count files
(define.h absent from src/). -/
def FCFC_OVERWRITE_ALL : Int := 2

/-- Modelled from the spec: the maximum Legendre multipole order MAX_ELL
(define.h absent from src/).  Every claim about it holds for any fixed
non-negative value; 6 is used here. -/
def FCFC_MAX_ELL : Int := 6

/-- Modelled from the spec: default overwrite level of an unset OVERWRITE
(define.h absent from src/); the template documents level 0 as quitting when
an output file exists. -/
def DEFAULT_OVERWRITE : Int := 0

/-- Modelled from the spec: default data structure (define.h absent). -/
def DEFAULT_STRUCT : Int := 0

/-- Modelled from the spec: default binning scheme (define.h absent). -/
def DEFAULT_BINNING : Int := 0

/-- Modelled from the spec: default projected-CF flag (define.h absent). -/
def DEFAULT_PROJECTED_CF : Bool := false

/-- Modelled from the spec: default output format (define.h absent). -/
def DEFAULT_OUTPUT_FORMAT : Int := 0

/-- Modelled from the spec: default verbosity flag (define.h absent). -/
def DEFAULT_VERBOSE : Bool := true

deriving instance DecidableEq for Except

/-- A C double as consumed by the configuration checks: a finite rational or
one of the non-finite IEEE values.  The embedded code applies only isfinite
and sign or order comparisons to doubles, which this type supports exactly. -/
inductive RVal where
  | fin (q : ℚ)
  | posInf
  | negInf
  | nan
deriving DecidableEq

/-- The isfinite(3) test on a double. -/
def RVal.isfinite : RVal → Bool
  | RVal.fin _ => true
  | _ => false

/-- The C comparison v <= 0 (false on NaN). -/
def RVal.leZero : RVal → Bool
  | RVal.fin q => decide (q ≤ 0)
  | RVal.posInf => false
  | RVal.negInf => true
  | RVal.nan => false

/-- The C comparison v < 0 (false on NaN). -/
def RVal.ltZero : RVal → Bool
  | RVal.fin q => decide (q < 0)
  | RVal.posInf => false
  | RVal.negInf => true
  | RVal.nan => false

/-- The C comparison a < b (false whenever NaN is involved). -/
def RVal.ltR : RVal → RVal → Bool
  | RVal.fin p, RVal.fin q => decide (p < q)
  | RVal.fin _, RVal.posInf => true
  | RVal.negInf, RVal.fin _ => true
  | RVal.negInf, RVal.posInf => true
  | _, _ => false

/-- The failure condition applied to each box side length by conf_verify
(load_conf.c line 702): not finite, or less than or equal to zero. -/
def badSide (v : RVal) : Bool := !v.isfinite || v.leZero

/-- Outcome of the interactive overwrite prompt of check_output
(load_conf.c lines 575-597): the user eventually answers yes, eventually
answers no, or exhausts the allowed number of failed inputs. -/
inductive PromptAns where
  | yes
  | no
  | fail
deriving DecidableEq

/-- The file-system facts about one output path that check_output observes
through access(2), plus the abstract prompt outcome for negative overwrite
levels.  nameSet is false when the configured name is NULL or empty; dirOK
captures the X_OK test on the parent directory (true also when the path has
no separator, in which case the C code skips the test). -/
structure OutFile where
  nameSet : Bool
  fexists : Bool
  readable : Bool
  writable : Bool
  writableDir : Bool
  prompt : PromptAns
deriving DecidableEq

/-- Placeholder OutFile used only as the default of List.getD in lemma
statements; it is never an actual configuration value in any theorem. -/
def dummyFile : OutFile :=
  { nameSet := false, fexists := false, readable := false, writable := false,
    writableDir := false, prompt := PromptAns.fail }

/-- The prompt block of check_output (load_conf.c lines 575-597): for a
negative overwrite level the user is asked; answering yes turns the level
into force, answering no into force - 1, and too many failed inputs abort
with a file error (modelled as none). -/
def resolveOvwrite (f : OutFile) (ovwrite force : Int) : Option Int :=
  if ovwrite < 0 then
    match f.prompt with
    | PromptAns.yes => some force
    | PromptAns.no => some (force - 1)
    | PromptAns.fail => none
  else some ovwrite

/-- check_output (load_conf.c lines 566-633): decides, for one output path,
between recomputing (0), reading the existing file (FCFC_ERR_SAVE), and
aborting (FCFC_ERR_CFG for an unset name, FCFC_ERR_FILE for permission or
prompt failures). -/
def check_output (f : OutFile) (ovwrite force : Int) : Int :=
  if f.nameSet = false then FCFC_ERR_CFG
  else if f.fexists then
    match resolveOvwrite f ovwrite force with
    | none => FCFC_ERR_FILE
    | some ov =>
      if ov ≤ FCFC_OVERWRITE_NONE then FCFC_ERR_FILE
      else if force ≤ ov then
        if f.writable then 0 else FCFC_ERR_FILE
      else if f.readable then FCFC_ERR_SAVE
      else FCFC_ERR_FILE
  else if f.writableDir then 0
  else FCFC_ERR_FILE

/-- Character s[i] of a C string modelled as a list: past the end of the list
the NUL terminator (and the bytes after it) read as the zero character. -/
def cGet (s : List Char) (i : Nat) : Char := s.getD i (Char.ofNat 0)

/-- The pair-identifier shape test of conf_verify (load_conf.c line 739):
s[0] and s[1] must be uppercase letters and s[2] must be NUL. -/
def validPairId (s : List Char) : Bool :=
  !(decide (cGet s 0 < 'A') || decide ('Z' < cGet s 0) ||
    decide (cGet s 1 < 'A') || decide ('Z' < cGet s 1) ||
    decide (2 < s.length))

/-- The duplicate test of conf_verify on two pair identifiers
(load_conf.c lines 747-748): same first character and same second one. -/
def samePairId (s t : List Char) : Bool :=
  decide (cGet s 0 = cGet t 0) && decide (cGet s 1 = cGet t 1)

/-- The nested duplicate-search loops over catalog labels
(load_conf.c lines 669-676). -/
def hasDupChar : List Char → Bool
  | [] => false
  | c :: r => r.any (fun d => decide (c = d)) || hasDupChar r

/-- The nested duplicate-search loops over pair identifiers
(load_conf.c lines 745-753). -/
def hasDupPair : List (List Char) → Bool
  | [] => false
  | s :: r => r.any (fun t => samePairId s t) || hasDupPair r

/-- The label-search loop of conf_verify (load_conf.c lines 773-777): each of
the two identifier characters adds one to the counter per configured label it
equals. -/
def labelFound (s : List Char) : List Char → Nat
  | [] => 0
  | c :: r =>
      (if cGet s 0 = c then 1 else 0) + (if cGet s 1 = c then 1 else 0) +
        labelFound s r

/-- Occurrence count of a character in a label list; a specification device
for reasoning about labelFound, not part of the embedded code. -/
def countC (c : Char) : List Char → Nat
  | [] => 0
  | d :: r => (if c = d then 1 else 0) + countC c r

/-- The raw configuration as it stands after conf_read: none encodes a
parameter that is not set (for arrays, cfg_get_size returning 0). -/
structure Conf where
  label : Option (List Char)
  bsize : List RVal
  ovwrite : Option Int
  dstruct : Option Int
  bintype : Option Int
  pc : List (List Char)
  pcout : Option (List OutFile)
  cf : List (List Char)
  cfout : Option (List OutFile)
  poles : List Int
  mpout : Option (List OutFile)
  wp : Option Bool
  wpout : Option (List OutFile)
  ofmt : Option Int
  verbose : Option Bool
deriving DecidableEq

/-- The configuration state conf_verify leaves behind on success: resolved
labels, the three box side lengths, resolved scalar options, the per-pair
compute-or-read flags comp_pc, and the sorted deduplicated multipole orders
with their count npole. -/
structure VConf where
  labels : List Char
  bsize : RVal × RVal × RVal
  ovwrite : Int
  dstruct : Int
  bintype : Int
  pc : List (List Char)
  comp_pc : List Bool
  ncf : Nat
  npole : Nat
  poles : List Int
  wp : Bool
  ofmt : Int
  verbose : Bool
deriving DecidableEq

/-- The CATALOG_LABEL block of conf_verify (load_conf.c lines 648-677).
The input-catalog count ninput is taken from the size of the label array
itself (line 649), so when the parameter is unset ninput is zero and the
alphabetical default-label loop assigns nothing; otherwise each label must be
an uppercase letter and duplicates are rejected. -/
def verifyLabel : Option (List Char) → Except Int (List Char)
  | none => Except.ok []
  | some l =>
    if l.any (fun c => decide (c < 'A') || decide ('Z' < c)) then
      Except.error FCFC_ERR_CFG
    else if hasDupChar l then Except.error FCFC_ERR_CFG
    else Except.ok l

/-- The finiteness and positivity test on the three box side lengths
(load_conf.c lines 701-706). -/
def checkBoxSides (a b c : RVal) : Except Int (RVal × RVal × RVal) :=
  if badSide a || badSide b || badSide c then Except.error FCFC_ERR_CFG
  else Except.ok (a, b, c)

/-- The BOX_SIZE block of conf_verify (load_conf.c lines 687-706): an unset
box is a configuration error (CHECK_EXIST_ARRAY), a single value is expanded
to three equal side lengths, two values are too few, extra values beyond
three are dropped with a warning, and each used side length must be finite
and positive. -/
def verifyBox : List RVal → Except Int (RVal × RVal × RVal)
  | [] => Except.error FCFC_ERR_CFG
  | [b] => checkBoxSides b b b
  | [_, _] => Except.error FCFC_ERR_CFG
  | b0 :: b1 :: b2 :: _ => checkBoxSides b0 b1 b2

/-- The DATA_STRUCT block of conf_verify (load_conf.c lines 712-720). -/
def verifyDstruct (d : Option Int) : Except Int Int :=
  if d.getD DEFAULT_STRUCT = FCFC_STRUCT_KDTREE ∨
     d.getD DEFAULT_STRUCT = FCFC_STRUCT_BALLTREE then
    Except.ok (d.getD DEFAULT_STRUCT)
  else Except.error FCFC_ERR_CFG

/-- The BINNING_SCHEME block of conf_verify (load_conf.c lines 723-732). -/
def verifyBintype (b : Option Int) : Except Int Int :=
  if b.getD DEFAULT_BINNING = FCFC_BIN_ISO ∨
     b.getD DEFAULT_BINNING = FCFC_BIN_SMU ∨
     b.getD DEFAULT_BINNING = FCFC_BIN_SPI then
    Except.ok (b.getD DEFAULT_BINNING)
  else Except.error FCFC_ERR_CFG

/-- The OUTPUT_FORMAT block of conf_verify (load_conf.c lines 887-895). -/
def verifyOfmt (o : Option Int) : Except Int Int :=
  if o.getD DEFAULT_OUTPUT_FORMAT = FCFC_OFMT_BIN ∨
     o.getD DEFAULT_OUTPUT_FORMAT = FCFC_OFMT_ASCII then
    Except.ok (o.getD DEFAULT_OUTPUT_FORMAT)
  else Except.error FCFC_ERR_CFG

/-- The PAIR_COUNT existence, shape and duplicate checks of conf_verify
(load_conf.c lines 735-753). -/
def verifyPcIds (pc : List (List Char)) : Except Int Unit :=
  if pc.isEmpty then Except.error FCFC_ERR_CFG
  else if pc.any (fun s => !validPairId s) then Except.error FCFC_ERR_CFG
  else if hasDupPair pc then Except.error FCFC_ERR_CFG
  else Except.ok ()

/-- The PAIR_COUNT_FILE loop of conf_verify when the parameter is set
(load_conf.c lines 764-784): check_output returning 0 marks the pair for
computation and triggers the label-existence check, FCFC_ERR_SAVE marks it
for reading and skips that check, and any other code aborts verification. -/
def checkPairFiles (ls : List Char) (ov : Int) :
    List (List Char) → List OutFile → Except Int (List Bool)
  | [], _ => Except.ok []
  | _ :: _, [] => Except.error FCFC_ERR_CFG
  | s :: ss, f :: fs =>
    if check_output f ov FCFC_OVERWRITE_ALL = 0 then
      if labelFound s ls = 2 then
        match checkPairFiles ls ov ss fs with
        | Except.error e => Except.error e
        | Except.ok rest => Except.ok (true :: rest)
      else Except.error FCFC_ERR_CFG
    else if check_output f ov FCFC_OVERWRITE_ALL = FCFC_ERR_SAVE then
      match checkPairFiles ls ov ss fs with
      | Except.error e => Except.error e
      | Except.ok rest => Except.ok (false :: rest)
    else Except.error (check_output f ov FCFC_OVERWRITE_ALL)

/-- The PAIR_COUNT_FILE-unset loop of conf_verify (load_conf.c lines
786-804): every pair is marked for computation and must pass the
label-existence check. -/
def checkPairsNoFile (ls : List Char) : List (List Char) → Except Int (List Bool)
  | [] => Except.ok []
  | s :: ss =>
    if labelFound s ls = 2 then
      match checkPairsNoFile ls ss with
      | Except.error e => Except.error e
      | Except.ok rest => Except.ok (true :: rest)
    else Except.error FCFC_ERR_CFG

/-- Dispatch between the two PAIR_COUNT_FILE branches of conf_verify
(load_conf.c lines 761-804), including the CHECK_EXIST_ARRAY and
CHECK_STR_ARRAY_LENGTH guards of the set branch. -/
def pairFileStage (ls : List Char) (ov : Int) (pc : List (List Char)) :
    Option (List OutFile) → Except Int (List Bool)
  | none => checkPairsNoFile ls pc
  | some fs =>
    if fs.isEmpty then Except.error FCFC_ERR_CFG
    else if fs.length < pc.length then Except.error FCFC_ERR_CFG
    else checkPairFiles ls ov pc fs

/-- One output-file loop of the CF_ESTIMATOR section (used for CF_OUTPUT_FILE,
MULTIPOLE_FILE and PROJECTED_FILE; load_conf.c lines 818-821, 857-860 and
874-877): the first ncf files are checked and any nonzero check_output code
aborts verification. -/
def checkCfFiles (ov force : Int) : Nat → List OutFile → Except Int Unit
  | 0, _ => Except.ok ()
  | _ + 1, [] => Except.error FCFC_ERR_CFG
  | n + 1, f :: fs =>
    if check_output f ov force = 0 then checkCfFiles ov force n fs
    else Except.error (check_output f ov force)

/-- The option-and-length wrapper around one output-file loop of the
CF_ESTIMATOR section (CHECK_EXIST_ARRAY and CHECK_STR_ARRAY_LENGTH);
an unset file list is accepted as NULL. -/
def checkOptFiles (ov force : Int) (ncf : Nat) :
    Option (List OutFile) → Except Int Unit
  | none => Except.ok ()
  | some fs =>
    if fs.isEmpty then Except.error FCFC_ERR_CFG
    else if fs.length < ncf then Except.error FCFC_ERR_CFG
    else checkCfFiles ov force ncf fs

/-- One pass of the inner shift of the insertion sort used on multipole
orders is summarised by Mathlib's insertion sort; what remains of the
duplicate-removal loop of conf_verify (load_conf.c lines 838-844) is this
scan that keeps the first element of each run of equal values. -/
def dedupAdj (prev : Int) : List Int → List Int
  | [] => []
  | x :: xs => if x = prev then dedupAdj prev xs else x :: dedupAdj x xs

/-- The duplicate-removal loop applied to a sorted array
(load_conf.c lines 838-845). -/
def collapseSorted : List Int → List Int
  | [] => []
  | x :: xs => x :: dedupAdj x xs

/-- The sort-and-deduplicate step of the MULTIPOLE block (load_conf.c lines
829-845); as in the C code it only runs when more than one order was given
(on one order it is the identity either way). -/
def sortPoles (l : List Int) : List Int :=
  if 1 < l.length then collapseSorted (List.insertionSort (· ≤ ·) l) else l

/-- poles[0] of the sorted multipole array. -/
def headC (l : List Int) : Int := l.headD 0

/-- poles[npole - 1] of the sorted multipole array. -/
def lastC : List Int → Int
  | [] => 0
  | [x] => x
  | _ :: x :: xs => lastC (x :: xs)

/-- The MULTIPOLE block of conf_verify for a non-empty order list
(load_conf.c lines 829-850): sort, collapse duplicates, then require
poles[0] >= 0 and poles[npole - 1] <= FCFC_MAX_ELL. -/
def verifyPoles (poles : List Int) : Except Int (List Int) :=
  if headC (sortPoles poles) < 0 ∨ FCFC_MAX_ELL < lastC (sortPoles poles) then
    Except.error FCFC_ERR_CFG
  else Except.ok (sortPoles poles)

/-- The CF_ESTIMATOR section of conf_verify (load_conf.c lines 807-882):
with no estimator the section is skipped (npole stays 0 from calloc); with
estimators, empty expressions are rejected, CF_OUTPUT_FILE is checked, and
then the MULTIPOLE block (under (s,mu) binning) or the PROJECTED_CF block
(under (s_perp,pi) binning) runs.  The result is (ncf, poles, npole, wp). -/
def verifyCfSection (ov bt : Int) (cf : List (List Char))
    (cfout : Option (List OutFile)) (poles : List Int)
    (mpout : Option (List OutFile)) (wp : Option Bool)
    (wpout : Option (List OutFile)) :
    Except Int (Nat × List Int × Nat × Bool) :=
  if cf.length = 0 then Except.ok (0, poles, 0, false)
  else if cf.any List.isEmpty then Except.error FCFC_ERR_CFG
  else
    match checkOptFiles ov FCFC_OVERWRITE_CFONLY cf.length cfout with
    | Except.error e => Except.error e
    | Except.ok _ =>
      if bt = FCFC_BIN_SMU then
        if poles.length = 0 then Except.ok (cf.length, poles, 0, false)
        else
          match verifyPoles poles with
          | Except.error e => Except.error e
          | Except.ok p =>
            match checkOptFiles ov FCFC_OVERWRITE_CFONLY cf.length mpout with
            | Except.error e => Except.error e
            | Except.ok _ => Except.ok (cf.length, p, p.length, false)
      else if bt = FCFC_BIN_SPI then
        if wp.getD DEFAULT_PROJECTED_CF then
          match checkOptFiles ov FCFC_OVERWRITE_CFONLY cf.length wpout with
          | Except.error e => Except.error e
          | Except.ok _ =>
            Except.ok (cf.length, poles, 0, wp.getD DEFAULT_PROJECTED_CF)
        else Except.ok (cf.length, poles, 0, wp.getD DEFAULT_PROJECTED_CF)
      else Except.ok (cf.length, poles, 0, false)

/-- Assembly of the verified configuration from the stage results, mirroring
the in-place field updates of conf_verify. -/
def mkVConf (conf : Conf) (ls : List Char) (box : RVal × RVal × RVal)
    (ds bt : Int) (comp : List Bool) (r : Nat × List Int × Nat × Bool)
    (ofv : Int) : VConf :=
  { labels := ls, bsize := box,
    ovwrite := conf.ovwrite.getD DEFAULT_OVERWRITE,
    dstruct := ds, bintype := bt, pc := conf.pc, comp_pc := comp,
    ncf := r.1, poles := r.2.1, npole := r.2.2.1, wp := r.2.2.2,
    ofmt := ofv, verbose := conf.verbose.getD DEFAULT_VERBOSE }

/-- The tail of conf_verify after the PAIR_COUNT checks: the
PAIR_COUNT_FILE stage, the CF_ESTIMATOR section, and OUTPUT_FORMAT
(load_conf.c lines 760-900). -/
def conf_verifyRest (conf : Conf) (ls : List Char) (box : RVal × RVal × RVal)
    (ds bt : Int) : Except Int VConf :=
  match pairFileStage ls (conf.ovwrite.getD DEFAULT_OVERWRITE) conf.pc
      conf.pcout with
  | Except.error e => Except.error e
  | Except.ok comp =>
    match verifyCfSection (conf.ovwrite.getD DEFAULT_OVERWRITE) bt conf.cf
        conf.cfout conf.poles conf.mpout conf.wp conf.wpout with
    | Except.error e => Except.error e
    | Except.ok r =>
      match verifyOfmt conf.ofmt with
      | Except.error e => Except.error e
      | Except.ok ofv => Except.ok (mkVConf conf ls box ds bt comp r ofv)

/-- conf_verify (load_conf.c lines 644-901): the verification stages in
source order; the first failing stage decides the returned error code. -/
def conf_verify (conf : Conf) : Except Int VConf :=
  match verifyLabel conf.label with
  | Except.error e => Except.error e
  | Except.ok ls =>
    match verifyBox conf.bsize with
    | Except.error e => Except.error e
    | Except.ok box =>
      match verifyDstruct conf.dstruct with
      | Except.error e => Except.error e
      | Except.ok ds =>
        match verifyBintype conf.bintype with
        | Except.error e => Except.error e
        | Except.ok bt =>
          match verifyPcIds conf.pc with
          | Except.error e => Except.error e
          | Except.ok _ => conf_verifyRest conf ls box ds bt

/-- load_conf (load_conf.c lines 1089-1128): none in place of a configuration
models conf_read failing; when conf_verify returns a nonzero code the whole
configuration is torn down and NULL is returned. -/
def load_conf (readResult : Option Conf) : Option VConf :=
  match readResult with
  | none => none
  | some conf =>
    match conf_verify conf with
    | Except.error _ => none
    | Except.ok vc => some vc

/-- The same configuration with the multipole request replaced. -/
def withPoles (conf : Conf) (p : List Int) : Conf := { conf with poles := p }

/-- Modelled from the spec: the separation-bin invariant of §3 (edges
strictly increasing, nbins >= 1, all edges finite and non-negative for
distance axes).  The verification of SEP_BIN_FILE and friends is absent from
src/ (load_conf.c line 884 holds only a placeholder comment); the bin edges
are instead passed straight to compute_cf (fcfc.h line 12). -/
def chainIncr : List RVal → Bool
  | [] => true
  | [_] => true
  | x :: y :: r => RVal.ltR x y && chainIncr (y :: r)

/-- Modelled from the spec: the full separation-bin validity test
(see chainIncr). -/
def binSpecValid (edges : List RVal) : Bool :=
  decide (2 ≤ edges.length) && chainIncr edges &&
    edges.all (fun e => e.isfinite && !e.ltZero)

/-- Modelled from the spec: the separation-bin check that a faithful
implementation performs during configuration, before any pair counting. -/
def verifySepBins (edges : List RVal) : Except Int Unit :=
  if binSpecValid edges then Except.ok () else Except.error FCFC_ERR_CFG

/-- Modelled from the spec: the invocation pipeline of compute_cf
(fcfc.h line 12), whose body is not under src/: configurations are verified,
the separation-bin specification is checked, and only then does pair
counting start; Except.ok () stands for the pair-counting stage having been
entered. -/
def compute_cf_model (conf : Conf) (sbins : List RVal) : Except Int Unit :=
  match conf_verify conf with
  | Except.error e => Except.error e
  | Except.ok _ =>
    match verifySepBins sbins with
    | Except.error e => Except.error e
    | Except.ok _ => Except.ok ()

/-- A finite positive box side used by the concrete configurations below. -/
def f1000 : RVal := RVal.fin 1000

/-- A concrete configuration that passes every verification stage: one
catalog labelled A, a cubic box of side 1000, the auto pair AA, one
estimator, (s,mu) binning and multipole orders 0 and 2. -/
def confOK : Conf :=
  { label := some ['A'], bsize := [f1000], ovwrite := none, dstruct := none,
    bintype := some 1, pc := [['A', 'A']], pcout := none, cf := [['D']],
    cfout := none, poles := [0, 2], mpout := none, wp := none, wpout := none,
    ofmt := none, verbose := none }

/-- The verified configuration produced from confOK. -/
def vcOK : VConf :=
  { labels := ['A'], bsize := (f1000, f1000, f1000), ovwrite := 0,
    dstruct := 0, bintype := 1, pc := [['A', 'A']], comp_pc := [true],
    ncf := 1, npole := 2, poles := [0, 2], wp := false, ofmt := 0,
    verbose := true }

/-- confOK with an out-of-range multipole order. -/
def confBadPole : Conf := { confOK with poles := [7] }

/-- The verified configuration produced from confBadPole once its multipole
request is replaced by the valid order 0. -/
def vcPole0 : VConf := { vcOK with npole := 1, poles := [0] }

/-- confOK with the box removed: the counterexample configuration of C3. -/
def confNoBox : Conf := { confOK with bsize := [] }

/-- An existing, readable but not writable pair-count output file. -/
def c6file : OutFile :=
  { nameSet := true, fexists := true, readable := true, writable := false,
    writableDir := true, prompt := PromptAns.fail }

/-- The counterexample configuration of C6: its pair-count output file
exists and is not writable, and the overwrite level is FCFC_OVERWRITE_ALL. -/
def confC6 : Conf :=
  { confOK with
    pcout := some [c6file], ovwrite := some 2, cf := [], poles := [] }

/-- An existing, readable and writable output file. -/
def readFile1 : OutFile :=
  { nameSet := true, fexists := true, readable := true, writable := true,
    writableDir := true, prompt := PromptAns.fail }

/-- The schematic one-pair configuration of C10: catalog labels lbl, a
single pair identifier s whose counts are taken from the file f, and
overwrite level ov. -/
def c10conf (lbl : List Char) (s : List Char) (f : OutFile) (ov : Int) :
    Conf :=
  { label := some lbl, bsize := [f1000], ovwrite := some ov, dstruct := none,
    bintype := none, pc := [s], pcout := some [f], cf := [], cfout := none,
    poles := [], mpout := none, wp := none, wpout := none, ofmt := none,
    verbose := none }

/-- The verified configuration produced from c10conf. -/
def c10vconf (lbl : List Char) (s : List Char) (ov : Int) : VConf :=
  { labels := lbl, bsize := (f1000, f1000, f1000), ovwrite := ov,
    dstruct := 0, bintype := 0, pc := [s], comp_pc := [false], ncf := 0,
    npole := 0, poles := [], wp := false, ofmt := 0, verbose := true }

/-- A strictly decreasing, hence invalid, pair of separation-bin edges. -/
def badBins : List RVal := [RVal.fin 1, RVal.fin 0]

/-- confOK with a malformed pair identifier (lowercase first letter). -/
def confBadPair : Conf := { confOK with pc := [['a', 'A']] }

/-- confOK with a duplicated pair identifier. -/
def confDupPair : Conf := { confOK with pc := [['A', 'A'], ['A', 'A']] }

/-- confOK with CATALOG_LABEL unset. -/
def confNoLabel : Conf := { confOK with label := none }

/-- confOK with a pair identifier naming catalogs that are not configured. -/
def confMissLabel : Conf := { confOK with pc := [['X', 'Y']] }

/-! Helper lemmas about the string and label utilities. -/

theorem cGet_nil (i : Nat) : cGet [] i = Char.ofNat 0 := by
  cases i <;> rfl

theorem validPairId_iff (s : List Char) :
    validPairId s = true ↔ s.length = 2 ∧ ∀ c ∈ s, 'A' ≤ c ∧ c ≤ 'Z' := by
  match s with
  | [] => decide
  | [a] =>
    have e1 : cGet [a] 1 = Char.ofNat 0 := rfl
    have h1 : decide (Char.ofNat 0 < 'A') = true := by decide
    simp [validPairId, e1, h1]
  | [a, b] =>
    have e0 : cGet [a, b] 0 = a := rfl
    have e1 : cGet [a, b] 1 = b := rfl
    have e2 : ([a, b] : List Char).length = 2 := rfl
    simp only [validPairId, e0, e1, e2]
    simp [not_lt, List.forall_mem_cons]
    tauto
  | a :: b :: c :: t =>
    have h3 : decide (2 < (a :: b :: c :: t).length) = true := by
      simp only [decide_eq_true_eq, List.length_cons]
      omega
    constructor
    · intro h
      simp [validPairId, h3] at h
    · intro h
      have hl := h.1
      simp only [List.length_cons] at hl
      omega

theorem hasDupChar_eq_false_iff (l : List Char) :
    hasDupChar l = false ↔ l.Nodup := by
  induction l with
  | nil => simp [hasDupChar]
  | cons c r ih =>
    simp only [hasDupChar, Bool.or_eq_false_iff, List.nodup_cons, ih]
    constructor
    · rintro ⟨h1, h2⟩
      refine ⟨?_, h2⟩
      intro hc
      have ht : (r.any fun d => decide (c = d)) = true :=
        List.any_eq_true.mpr ⟨c, hc, by simp⟩
      rw [h1] at ht
      cases ht
    · rintro ⟨h1, h2⟩
      refine ⟨?_, h2⟩
      cases hq : (r.any fun d => decide (c = d)) with
      | false => rfl
      | true =>
        obtain ⟨d, hd, hcd⟩ := List.any_eq_true.mp hq
        have : c = d := of_decide_eq_true hcd
        exact absurd (this ▸ hd) h1

theorem samePairId_refl (s : List Char) : samePairId s s = true := by
  simp [samePairId]

theorem hasDupPair_eq_false_iff (l : List (List Char)) :
    hasDupPair l = false ↔ l.Pairwise (fun s t => samePairId s t = false) := by
  induction l with
  | nil => simp [hasDupPair]
  | cons s r ih =>
    simp only [hasDupPair, Bool.or_eq_false_iff, List.pairwise_cons, ih]
    constructor
    · rintro ⟨h1, h2⟩
      refine ⟨?_, h2⟩
      intro t ht
      cases hq : samePairId s t with
      | false => rfl
      | true =>
        have ht2 : (r.any fun u => samePairId s u) = true :=
          List.any_eq_true.mpr ⟨t, ht, hq⟩
        rw [h1] at ht2
        cases ht2
    · rintro ⟨h1, h2⟩
      refine ⟨?_, h2⟩
      cases hq : (r.any fun u => samePairId s u) with
      | false => rfl
      | true =>
        obtain ⟨t, ht, hst⟩ := List.any_eq_true.mp hq
        rw [h1 t ht] at hst
        cases hst

theorem nodup_of_hasDupPair (l : List (List Char)) (h : hasDupPair l = false) :
    l.Nodup := by
  have hp := (hasDupPair_eq_false_iff l).mp h
  refine hp.imp ?_
  intro a b hab hEq
  rw [hEq, samePairId_refl] at hab
  cases hab

theorem hasDupPair_of_getD :
    ∀ (l : List (List Char)) (i j : Nat), i < j → j < l.length →
      samePairId (l.getD i []) (l.getD j []) = true → hasDupPair l = true
  | [], _, j, _, hj, _ => by simp at hj
  | s :: r, 0, j + 1, _, hj, hsame => by
    have hjr : j < r.length := by simpa using hj
    have hmem : r.getD j [] ∈ r := by
      rw [List.getD_eq_getElem r [] hjr]
      exact List.getElem_mem hjr
    simp only [hasDupPair, Bool.or_eq_true, List.any_eq_true]
    left
    refine ⟨r.getD j [], hmem, ?_⟩
    simpa using hsame
  | s :: r, i + 1, j + 1, hij, hj, hsame => by
    simp only [hasDupPair, Bool.or_eq_true]
    right
    exact hasDupPair_of_getD r i j (by omega) (by simpa using hj)
      (by simpa using hsame)

theorem countC_eq_zero_iff (c : Char) (l : List Char) :
    countC c l = 0 ↔ c ∉ l := by
  induction l with
  | nil => simp [countC]
  | cons d r ih =>
    by_cases h : c = d
    · subst h
      simp [countC, ih]
    · simp [countC, h, ih]

theorem countC_le_one_of_nodup (c : Char) (l : List Char) (h : l.Nodup) :
    countC c l ≤ 1 := by
  induction l with
  | nil => simp [countC]
  | cons d r ih =>
    obtain ⟨hd, hr⟩ := List.nodup_cons.mp h
    by_cases hc : c = d
    · subst hc
      have : countC c r = 0 := (countC_eq_zero_iff c r).mpr hd
      simp [countC, this]
    · simpa [countC, hc] using ih hr

theorem countC_pos_iff (c : Char) (l : List Char) :
    0 < countC c l ↔ c ∈ l := by
  have h := countC_eq_zero_iff c l
  constructor
  · intro hp
    by_contra hn
    rw [← h] at hn
    omega
  · intro hm
    rcases Nat.eq_zero_or_pos (countC c l) with h0 | h0
    · exact absurd hm (h.mp h0)
    · exact h0

theorem labelFound_eq_counts (s : List Char) (ls : List Char) :
    labelFound s ls = countC (cGet s 0) ls + countC (cGet s 1) ls := by
  induction ls with
  | nil => simp [labelFound, countC]
  | cons c r ih => simp [labelFound, countC, ih]; omega

theorem labelFound_two_iff (s : List Char) (ls : List Char) (h : ls.Nodup) :
    labelFound s ls = 2 ↔ cGet s 0 ∈ ls ∧ cGet s 1 ∈ ls := by
  rw [labelFound_eq_counts]
  have h0 := countC_le_one_of_nodup (cGet s 0) ls h
  have h1 := countC_le_one_of_nodup (cGet s 1) ls h
  rw [← countC_pos_iff (cGet s 0) ls, ← countC_pos_iff (cGet s 1) ls]
  omega

theorem labelFound_nil (s : List Char) : labelFound s [] = 0 := rfl

/-! Lemmas about the individual verification stages. -/

theorem verifyLabel_err (lab : Option (List Char)) (e : Int)
    (h : verifyLabel lab = Except.error e) : e = FCFC_ERR_CFG := by
  cases lab with
  | none => simp [verifyLabel] at h
  | some l =>
    simp only [verifyLabel] at h
    split_ifs at h <;> simp_all

theorem verifyLabel_ok (lab : Option (List Char)) (ls : List Char)
    (h : verifyLabel lab = Except.ok ls) :
    ls.Nodup ∧ ls = lab.getD [] := by
  cases lab with
  | none =>
    simp only [verifyLabel, Except.ok.injEq] at h
    subst h
    simp
  | some l =>
    simp only [verifyLabel] at h
    split_ifs at h with h1 h2
    try simp only [Except.ok.injEq] at h
    try subst h
    exact ⟨(hasDupChar_eq_false_iff _).mp (Bool.of_not_eq_true h2), rfl⟩

theorem checkBoxSides_err (a b c : RVal) (e : Int)
    (h : checkBoxSides a b c = Except.error e) : e = FCFC_ERR_CFG := by
  simp only [checkBoxSides] at h
  split_ifs at h <;> simp_all

theorem checkBoxSides_ok (a b c : RVal) (t : RVal × RVal × RVal)
    (h : checkBoxSides a b c = Except.ok t) :
    t = (a, b, c) ∧ badSide a = false ∧ badSide b = false ∧
      badSide c = false := by
  simp only [checkBoxSides] at h
  split_ifs at h with h1
  have h1f : (badSide a || badSide b || badSide c) = false :=
    Bool.of_not_eq_true h1
  simp only [Bool.or_eq_false_iff] at h1f
  refine ⟨?_, h1f.1.1, h1f.1.2, h1f.2⟩
  try simp only [Except.ok.injEq] at h
  first
  | rfl
  | exact h.symm
  | exact h

theorem verifyBox_err (bs : List RVal) (e : Int)
    (h : verifyBox bs = Except.error e) : e = FCFC_ERR_CFG := by
  match bs with
  | [] => simp [verifyBox] at h; omega
  | [b] => exact checkBoxSides_err _ _ _ _ h
  | [b0, b1] => simp [verifyBox] at h; omega
  | b0 :: b1 :: b2 :: rest => exact checkBoxSides_err _ _ _ _ h

theorem verifyBox_ok (bs : List RVal) (t : RVal × RVal × RVal)
    (h : verifyBox bs = Except.ok t) :
    badSide t.1 = false ∧ badSide t.2.1 = false ∧ badSide t.2.2 = false ∧
      ∀ b, bs = [b] → t = (b, b, b) := by
  match bs with
  | [] => simp [verifyBox] at h
  | [b] =>
    obtain ⟨ht, h1, h2, h3⟩ := checkBoxSides_ok _ _ _ _ h
    subst ht
    refine ⟨h1, h2, h3, ?_⟩
    intro x hx
    have hbx : b = x := by simpa using hx
    subst hbx
    rfl
  | [b0, b1] => simp [verifyBox] at h
  | b0 :: b1 :: b2 :: rest =>
    obtain ⟨ht, h1, h2, h3⟩ := checkBoxSides_ok _ _ _ _ h
    subst ht
    refine ⟨h1, h2, h3, ?_⟩
    intro x hx
    simp at hx

theorem verifyBox_nil : verifyBox [] = Except.error FCFC_ERR_CFG := rfl

theorem verifyDstruct_err (d : Option Int) (e : Int)
    (h : verifyDstruct d = Except.error e) : e = FCFC_ERR_CFG := by
  simp only [verifyDstruct] at h
  split_ifs at h <;> simp_all

theorem verifyBintype_err (b : Option Int) (e : Int)
    (h : verifyBintype b = Except.error e) : e = FCFC_ERR_CFG := by
  simp only [verifyBintype] at h
  split_ifs at h <;> simp_all

theorem verifyBintype_smu (b : Option Int) (hb : b = some FCFC_BIN_SMU) :
    verifyBintype b = Except.ok FCFC_BIN_SMU := by
  subst hb
  rfl

theorem verifyOfmt_err (o : Option Int) (e : Int)
    (h : verifyOfmt o = Except.error e) : e = FCFC_ERR_CFG := by
  simp only [verifyOfmt] at h
  split_ifs at h <;> simp_all

theorem verifyPcIds_err (pc : List (List Char)) (e : Int)
    (h : verifyPcIds pc = Except.error e) : e = FCFC_ERR_CFG := by
  simp only [verifyPcIds] at h
  split_ifs at h <;> simp_all

theorem verifyPcIds_ok (pc : List (List Char))
    (h : verifyPcIds pc = Except.ok ()) :
    pc ≠ [] ∧ (∀ s ∈ pc, validPairId s = true) ∧ hasDupPair pc = false := by
  simp only [verifyPcIds] at h
  split_ifs at h with h1 h2 h3
  have hv := Bool.of_not_eq_true h2
  rw [List.any_eq_false] at hv
  refine ⟨?_, ?_, Bool.of_not_eq_true h3⟩
  · intro hnil
    rw [hnil] at h1
    exact h1 rfl
  · intro s hs
    have := hv s hs
    simpa using this

theorem verifyPcIds_fail (pc : List (List Char))
    (hbad : ¬ (pc ≠ [] ∧ (∀ s ∈ pc, validPairId s = true) ∧
      hasDupPair pc = false)) :
    verifyPcIds pc = Except.error FCFC_ERR_CFG := by
  cases hr : verifyPcIds pc with
  | ok u =>
    cases u
    exact absurd (verifyPcIds_ok pc hr) hbad
  | error e => rw [verifyPcIds_err pc e hr]

theorem checkPairsNoFile_err (ls : List Char) :
    ∀ (pc : List (List Char)) (e : Int),
      checkPairsNoFile ls pc = Except.error e → e = FCFC_ERR_CFG := by
  intro pc
  induction pc with
  | nil => intro e h; cases h
  | cons s ss ih =>
    intro e h
    simp only [checkPairsNoFile] at h
    split_ifs at h with h1
    · cases hr : checkPairsNoFile ls ss with
      | error e2 =>
        rw [hr] at h
        simp only [Except.error.injEq] at h
        rw [← h]
        exact ih e2 hr
      | ok rest =>
        rw [hr] at h
        cases h
    · simp only [Except.error.injEq] at h
      exact h.symm

theorem checkPairsNoFile_ok (ls : List Char) :
    ∀ (pc : List (List Char)) (comp : List Bool),
      checkPairsNoFile ls pc = Except.ok comp →
      comp = List.replicate pc.length true ∧
        ∀ s ∈ pc, labelFound s ls = 2 := by
  intro pc
  induction pc with
  | nil =>
    intro comp h
    simp only [checkPairsNoFile, Except.ok.injEq] at h
    subst h
    simp
  | cons s ss ih =>
    intro comp h
    simp only [checkPairsNoFile] at h
    split_ifs at h with h1
    · cases hr : checkPairsNoFile ls ss with
      | error e2 =>
        rw [hr] at h
        cases h
      | ok rest =>
        rw [hr] at h
        simp only [Except.ok.injEq] at h
        obtain ⟨hrep, hall⟩ := ih rest hr
        subst h
        constructor
        · simp [List.replicate_succ, hrep]
        · intro t ht
          rcases List.mem_cons.mp ht with rfl | ht2
          · exact h1
          · exact hall t ht2

theorem checkPairsNoFile_fail (ls : List Char) (pc : List (List Char))
    (h : ∃ s ∈ pc, labelFound s ls ≠ 2) :
    checkPairsNoFile ls pc = Except.error FCFC_ERR_CFG := by
  cases hr : checkPairsNoFile ls pc with
  | ok comp =>
    obtain ⟨-, hall⟩ := checkPairsNoFile_ok ls pc comp hr
    obtain ⟨s, hs, hne⟩ := h
    exact absurd (hall s hs) hne
  | error e => rw [checkPairsNoFile_err ls pc e hr]

theorem checkPairFiles_ok (ls : List Char) (ov : Int) :
    ∀ (pc : List (List Char)) (fs : List OutFile) (comp : List Bool),
      checkPairFiles ls ov pc fs = Except.ok comp →
      comp.length = pc.length ∧
        ∀ i, i < pc.length →
          ((comp.getD i true = true ∧
              check_output (fs.getD i dummyFile) ov FCFC_OVERWRITE_ALL = 0 ∧
              labelFound (pc.getD i []) ls = 2) ∨
           (comp.getD i true = false ∧
              check_output (fs.getD i dummyFile) ov FCFC_OVERWRITE_ALL =
                FCFC_ERR_SAVE)) := by
  intro pc
  induction pc with
  | nil =>
    intro fs comp h
    simp only [checkPairFiles, Except.ok.injEq] at h
    subst h
    exact ⟨rfl, fun i hi => absurd hi (by simp)⟩
  | cons s ss ih =>
    intro fs comp h
    cases fs with
    | nil => cases h
    | cons f fs2 =>
      simp only [checkPairFiles] at h
      split_ifs at h with h1 h2 h3
      · cases hr : checkPairFiles ls ov ss fs2 with
        | error e2 => rw [hr] at h; cases h
        | ok rest =>
          rw [hr] at h
          simp only [Except.ok.injEq] at h
          subst h
          obtain ⟨hlen, hall⟩ := ih fs2 rest hr
          refine ⟨by simp [hlen], ?_⟩
          intro i hi
          cases i with
          | zero =>
            left
            exact ⟨rfl, by simpa using h1, by simpa using h2⟩
          | succ j =>
            have hj : j < ss.length := by simpa using hi
            simpa using hall j hj
      · cases hr : checkPairFiles ls ov ss fs2 with
        | error e2 => rw [hr] at h; cases h
        | ok rest =>
          rw [hr] at h
          simp only [Except.ok.injEq] at h
          subst h
          obtain ⟨hlen, hall⟩ := ih fs2 rest hr
          refine ⟨by simp [hlen], ?_⟩
          intro i hi
          cases i with
          | zero =>
            right
            exact ⟨rfl, by simpa using h3⟩
          | succ j =>
            have hj : j < ss.length := by simpa using hi
            simpa using hall j hj

theorem checkPairFiles_labels_indep (ov : Int) :
    ∀ (pc : List (List Char)) (fs : List OutFile) (ls ls2 : List Char),
      (∀ i, i < pc.length →
        check_output (fs.getD i dummyFile) ov FCFC_OVERWRITE_ALL =
          FCFC_ERR_SAVE) →
      pc.length ≤ fs.length →
      checkPairFiles ls ov pc fs = checkPairFiles ls2 ov pc fs := by
  intro pc
  induction pc with
  | nil => intro fs ls ls2 hsave hlen; rfl
  | cons s ss ih =>
    intro fs ls ls2 hsave hlen
    cases fs with
    | nil => simp at hlen
    | cons f fs2 =>
      have h0 := hsave 0 (by simp)
      simp only [List.getD_cons_zero] at h0
      have hnz : ¬(check_output f ov FCFC_OVERWRITE_ALL = 0) := by
        rw [h0]
        simp [FCFC_ERR_SAVE]
      simp only [checkPairFiles, if_neg hnz, if_pos h0]
      rw [ih fs2 ls ls2 ?_ ?_]
      · intro i hi
        have := hsave (i + 1) (by simpa using Nat.succ_lt_succ hi)
        simpa using this
      · simpa using Nat.le_of_succ_le_succ (by simpa using hlen)

/-! Lemmas about the multipole sort-and-deduplicate step. -/

theorem dedupAdj_spec :
    ∀ (l : List Int) (prev : Int), List.Sorted (· ≤ ·) l →
      (∀ y ∈ l, prev ≤ y) →
      List.Chain' (· < ·) (dedupAdj prev l) ∧
        (∀ y ∈ dedupAdj prev l, prev < y) ∧
        (∀ x, x ∈ dedupAdj prev l ↔ x ∈ l ∧ x ≠ prev) := by
  intro l
  induction l with
  | nil =>
    intro prev _ _
    simp [dedupAdj]
  | cons x xs ih =>
    intro prev hs hall
    obtain ⟨hx, hxs⟩ := List.sorted_cons.mp hs
    by_cases hxp : x = prev
    · subst hxp
      have hall2 : ∀ y ∈ xs, x ≤ y := hx
      obtain ⟨hc, hgt, hmem⟩ := ih x hxs hall2
      rw [dedupAdj, if_pos rfl]
      refine ⟨hc, hgt, ?_⟩
      intro z
      rw [hmem z, List.mem_cons]
      constructor
      · rintro ⟨hz, hzx⟩
        exact ⟨Or.inr hz, hzx⟩
      · rintro ⟨hz | hz, hzx⟩
        · exact absurd hz hzx
        · exact ⟨hz, hzx⟩
    · have hpx : prev < x :=
        lt_of_le_of_ne (hall x (by simp)) (fun he => hxp he.symm)
      obtain ⟨hc, hgt, hmem⟩ := ih x hxs hx
      rw [dedupAdj, if_neg hxp]
      refine ⟨?_, ?_, ?_⟩
      · refine List.chain'_cons'.mpr ⟨?_, hc⟩
        intro y hy
        exact hgt y (List.mem_of_mem_head? hy)
      · intro y hy
        rcases List.mem_cons.mp hy with rfl | hy2
        · exact hpx
        · exact lt_trans hpx (hgt y hy2)
      · intro z
        rw [List.mem_cons, List.mem_cons]
        constructor
        · rintro (rfl | hz)
          · exact ⟨Or.inl rfl, ne_of_gt hpx⟩
          · obtain ⟨hz2, hzx⟩ := (hmem z).mp hz
            have : prev < z := lt_trans hpx (hgt z hz)
            exact ⟨Or.inr hz2, ne_of_gt this⟩
        · rintro ⟨rfl | hz, hzp⟩
          · exact Or.inl rfl
          · by_cases hzx : z = x
            · exact Or.inl hzx
            · exact Or.inr ((hmem z).mpr ⟨hz, hzx⟩)

theorem collapseSorted_spec (l : List Int) (hs : List.Sorted (· ≤ ·) l) :
    List.Chain' (· < ·) (collapseSorted l) ∧
      (∀ x, x ∈ collapseSorted l ↔ x ∈ l) := by
  cases l with
  | nil => simp [collapseSorted]
  | cons x xs =>
    obtain ⟨hx, hxs⟩ := List.sorted_cons.mp hs
    obtain ⟨hc, hgt, hmem⟩ := dedupAdj_spec xs x hxs hx
    rw [collapseSorted]
    constructor
    · refine List.chain'_cons'.mpr ⟨?_, hc⟩
      intro y hy
      exact hgt y (List.mem_of_mem_head? hy)
    · intro z
      rw [List.mem_cons, List.mem_cons, hmem z]
      constructor
      · rintro (rfl | ⟨hz, _⟩)
        · exact Or.inl rfl
        · exact Or.inr hz
      · rintro (rfl | hz)
        · exact Or.inl rfl
        · by_cases hzx : z = x
          · exact Or.inl hzx
          · exact Or.inr ⟨hz, hzx⟩

theorem sortPoles_spec (l : List Int) :
    List.Chain' (· < ·) (sortPoles l) ∧
      (∀ x, x ∈ sortPoles l ↔ x ∈ l) := by
  rw [sortPoles]
  split_ifs with hlen
  · obtain ⟨hc, hmem⟩ := collapseSorted_spec (List.insertionSort (· ≤ ·) l)
      (List.sorted_insertionSort (· ≤ ·) l)
    refine ⟨hc, ?_⟩
    intro x
    rw [hmem x]
    exact (List.perm_insertionSort (· ≤ ·) l).mem_iff
  · match l with
    | [] => simp
    | [x] => simp
    | x :: y :: t =>
      exfalso
      apply hlen
      simp only [List.length_cons]
      omega

theorem headC_le (l : List Int) (h : List.Pairwise (· < ·) l) :
    ∀ x ∈ l, headC l ≤ x := by
  cases l with
  | nil => simp
  | cons a t =>
    intro x hx
    rcases List.mem_cons.mp hx with rfl | hx2
    · exact le_refl x
    · exact le_of_lt ((List.pairwise_cons.mp h).1 x hx2)

theorem le_lastC (l : List Int) (h : List.Pairwise (· < ·) l) :
    ∀ x ∈ l, x ≤ lastC l := by
  induction l with
  | nil => simp
  | cons a t ih =>
    intro x hx
    cases t with
    | nil =>
      have : x = a := by simpa using hx
      subst this
      exact le_refl x
    | cons b t2 =>
      have hstep : lastC (a :: b :: t2) = lastC (b :: t2) := rfl
      rw [hstep]
      obtain ⟨ha, ht⟩ := List.pairwise_cons.mp h
      rcases List.mem_cons.mp hx with rfl | hx2
      · have hxb : x < b := ha b (by simp)
        have hbl : b ≤ lastC (b :: t2) := ih ht b (by simp)
        omega
      · exact ih ht x hx2

theorem headC_mem (l : List Int) (h : l ≠ []) : headC l ∈ l := by
  cases l with
  | nil => exact absurd rfl h
  | cons a t => simp [headC]

theorem lastC_mem : ∀ (l : List Int), l ≠ [] → lastC l ∈ l := by
  intro l
  induction l with
  | nil => intro h; exact absurd rfl h
  | cons a t ih =>
    intro _
    cases t with
    | nil => simp [lastC]
    | cons b t2 =>
      have hstep : lastC (a :: b :: t2) = lastC (b :: t2) := rfl
      rw [hstep]
      exact List.mem_cons_of_mem a (ih (by simp))

theorem verifyPoles_ok_elim (poles p : List Int)
    (h : verifyPoles poles = Except.ok p) :
    p = sortPoles poles ∧ List.Chain' (· < ·) p ∧
      (∀ x, x ∈ p ↔ x ∈ poles) ∧
      (∀ x ∈ poles, 0 ≤ x ∧ x ≤ FCFC_MAX_ELL) := by
  simp only [verifyPoles] at h
  split_ifs at h with hcond
  obtain ⟨hc, hmem⟩ := sortPoles_spec poles
  have hp : p = sortPoles poles := by
    simp only [Except.ok.injEq] at h
    first
    | exact h.symm
    | exact h
  subst hp
  push_neg at hcond
  have hpair : List.Pairwise (· < ·) (sortPoles poles) :=
    List.chain'_iff_pairwise.mp hc
  refine ⟨rfl, hc, hmem, ?_⟩
  intro x hx
  have hxs : x ∈ sortPoles poles := (hmem x).mpr hx
  have h1 := headC_le (sortPoles poles) hpair x hxs
  have h2 := le_lastC (sortPoles poles) hpair x hxs
  constructor
  · omega
  · have := hcond.2
    omega

theorem verifyPoles_err_of (poles : List Int)
    (hbad : ∃ x ∈ poles, x < 0 ∨ FCFC_MAX_ELL < x) :
    verifyPoles poles = Except.error FCFC_ERR_CFG := by
  cases hr : verifyPoles poles with
  | error e =>
    simp only [verifyPoles] at hr
    split_ifs at hr
    simp only [Except.error.injEq] at hr
    first
    | rw [← hr]
    | rw [hr]
  | ok p =>
    obtain ⟨-, -, -, hrange⟩ := verifyPoles_ok_elim poles p hr
    obtain ⟨x, hx, hor⟩ := hbad
    obtain ⟨hl, hr2⟩ := hrange x hx
    rcases hor with h1 | h1 <;> omega

/-! Lemmas about the estimator section and the stage composition. -/

theorem verifyCfSection_ok_parts (ov bt : Int) (cf : List (List Char))
    (cfout : Option (List OutFile)) (poles : List Int)
    (mpout : Option (List OutFile)) (wp : Option Bool)
    (wpout : Option (List OutFile)) (r : Nat × List Int × Nat × Bool)
    (hcf : cf ≠ [])
    (h : verifyCfSection ov bt cf cfout poles mpout wp wpout = Except.ok r) :
    cf.any List.isEmpty = false ∧
      checkOptFiles ov FCFC_OVERWRITE_CFONLY cf.length cfout =
        Except.ok () := by
  have hlen : ¬(cf.length = 0) := by simpa using hcf
  simp only [verifyCfSection] at h
  rw [if_neg hlen] at h
  cases hne : cf.any List.isEmpty with
  | true =>
    rw [if_pos hne] at h
    exact Except.noConfusion h
  | false =>
    have hne2 : ¬(cf.any List.isEmpty = true) := by simp [hne]
    rw [if_neg hne2] at h
    cases hopt : checkOptFiles ov FCFC_OVERWRITE_CFONLY cf.length cfout with
    | error e =>
      rw [hopt] at h
      exact Except.noConfusion h
    | ok u =>
      cases u
      exact ⟨rfl, rfl⟩

theorem verifyCfSection_smu_poles (ov bt : Int) (cf : List (List Char))
    (cfout : Option (List OutFile)) (poles : List Int)
    (mpout : Option (List OutFile)) (wp : Option Bool)
    (wpout : Option (List OutFile)) (r : Nat × List Int × Nat × Bool)
    (hbt : bt = FCFC_BIN_SMU) (hcf : cf ≠ []) (hp : poles ≠ [])
    (h : verifyCfSection ov bt cf cfout poles mpout wp wpout = Except.ok r) :
    ∃ p, verifyPoles poles = Except.ok p ∧ r.2.1 = p ∧
      r.2.2.1 = p.length := by
  subst hbt
  obtain ⟨hne, hopt⟩ :=
    verifyCfSection_ok_parts ov FCFC_BIN_SMU cf cfout poles mpout wp wpout r
      hcf h
  have hlen : ¬(cf.length = 0) := by simpa using hcf
  have hplen : ¬(poles.length = 0) := by simpa using hp
  have hne2 : ¬(cf.any List.isEmpty = true) := by simp [hne]
  simp only [verifyCfSection] at h
  rw [if_neg hlen, if_neg hne2] at h
  simp only [hopt, if_true] at h
  rw [if_neg hplen] at h
  cases hpl : verifyPoles poles with
  | error e =>
    simp only [hpl] at h
    exact Except.noConfusion h
  | ok p =>
    simp only [hpl] at h
    cases hmp : checkOptFiles ov FCFC_OVERWRITE_CFONLY cf.length mpout with
    | error e =>
      simp only [hmp] at h
      exact Except.noConfusion h
    | ok u2 =>
      cases u2
      simp only [hmp, Except.ok.injEq] at h
      refine ⟨p, rfl, ?_, ?_⟩
      · rw [← h]
      · rw [← h]

theorem verifyCfSection_err_badpoles (ov bt : Int) (cf : List (List Char))
    (cfout : Option (List OutFile)) (poles : List Int)
    (mpout : Option (List OutFile)) (wp : Option Bool)
    (wpout : Option (List OutFile))
    (hbt : bt = FCFC_BIN_SMU) (hcf : cf ≠ []) (hp : poles ≠ [])
    (hne : cf.any List.isEmpty = false)
    (hopt : checkOptFiles ov FCFC_OVERWRITE_CFONLY cf.length cfout =
      Except.ok ())
    (hbad : verifyPoles poles = Except.error FCFC_ERR_CFG) :
    verifyCfSection ov bt cf cfout poles mpout wp wpout =
      Except.error FCFC_ERR_CFG := by
  subst hbt
  have hlen : ¬(cf.length = 0) := by simpa using hcf
  have hplen : ¬(poles.length = 0) := by simpa using hp
  have hne2 : ¬(cf.any List.isEmpty = true) := by simp [hne]
  simp only [verifyCfSection]
  rw [if_neg hlen, if_neg hne2]
  simp only [hopt, if_true]
  rw [if_neg hplen]
  simp only [hbad]

theorem conf_verify_eq_rest (conf : Conf) (ls : List Char)
    (box : RVal × RVal × RVal) (ds bt : Int)
    (h1 : verifyLabel conf.label = Except.ok ls)
    (h2 : verifyBox conf.bsize = Except.ok box)
    (h3 : verifyDstruct conf.dstruct = Except.ok ds)
    (h4 : verifyBintype conf.bintype = Except.ok bt)
    (h5 : verifyPcIds conf.pc = Except.ok ()) :
    conf_verify conf = conf_verifyRest conf ls box ds bt := by
  simp only [conf_verify, h1, h2, h3, h4, h5]

theorem conf_verifyRest_pair_err (conf : Conf) (ls : List Char)
    (box : RVal × RVal × RVal) (ds bt : Int) (e : Int)
    (h : pairFileStage ls (conf.ovwrite.getD DEFAULT_OVERWRITE) conf.pc
      conf.pcout = Except.error e) :
    conf_verifyRest conf ls box ds bt = Except.error e := by
  simp only [conf_verifyRest, h]

theorem conf_verifyRest_cf_err (conf : Conf) (ls : List Char)
    (box : RVal × RVal × RVal) (ds bt : Int) (comp : List Bool) (e : Int)
    (hpair : pairFileStage ls (conf.ovwrite.getD DEFAULT_OVERWRITE) conf.pc
      conf.pcout = Except.ok comp)
    (h : verifyCfSection (conf.ovwrite.getD DEFAULT_OVERWRITE) bt conf.cf
      conf.cfout conf.poles conf.mpout conf.wp conf.wpout =
        Except.error e) :
    conf_verifyRest conf ls box ds bt = Except.error e := by
  simp only [conf_verifyRest, hpair, h]

theorem conf_verify_ok_elim (conf : Conf) (vc : VConf)
    (h : conf_verify conf = Except.ok vc) :
    ∃ ls box ds bt comp r ofv,
      verifyLabel conf.label = Except.ok ls ∧
      verifyBox conf.bsize = Except.ok box ∧
      verifyDstruct conf.dstruct = Except.ok ds ∧
      verifyBintype conf.bintype = Except.ok bt ∧
      verifyPcIds conf.pc = Except.ok () ∧
      pairFileStage ls (conf.ovwrite.getD DEFAULT_OVERWRITE) conf.pc
        conf.pcout = Except.ok comp ∧
      verifyCfSection (conf.ovwrite.getD DEFAULT_OVERWRITE) bt conf.cf
        conf.cfout conf.poles conf.mpout conf.wp conf.wpout =
          Except.ok r ∧
      verifyOfmt conf.ofmt = Except.ok ofv ∧
      vc = mkVConf conf ls box ds bt comp r ofv := by
  cases hl : verifyLabel conf.label with
  | error e => simp [conf_verify, hl] at h
  | ok ls =>
  cases hb : verifyBox conf.bsize with
  | error e => simp [conf_verify, hl, hb] at h
  | ok box =>
  cases hd : verifyDstruct conf.dstruct with
  | error e => simp [conf_verify, hl, hb, hd] at h
  | ok ds =>
  cases hbt : verifyBintype conf.bintype with
  | error e => simp [conf_verify, hl, hb, hd, hbt] at h
  | ok bt =>
  cases hpc : verifyPcIds conf.pc with
  | error e => simp [conf_verify, hl, hb, hd, hbt, hpc] at h
  | ok u =>
  cases u
  rw [conf_verify_eq_rest conf ls box ds bt hl hb hd hbt hpc] at h
  cases hpair : pairFileStage ls (conf.ovwrite.getD DEFAULT_OVERWRITE)
      conf.pc conf.pcout with
  | error e => simp [conf_verifyRest, hpair] at h
  | ok comp =>
  cases hcf : verifyCfSection (conf.ovwrite.getD DEFAULT_OVERWRITE) bt
      conf.cf conf.cfout conf.poles conf.mpout conf.wp conf.wpout with
  | error e => simp [conf_verifyRest, hpair, hcf] at h
  | ok r =>
  cases hof : verifyOfmt conf.ofmt with
  | error e => simp [conf_verifyRest, hpair, hcf, hof] at h
  | ok ofv =>
  have hvc : vc = mkVConf conf ls box ds bt comp r ofv := by
    simp only [conf_verifyRest, hpair, hcf, hof, Except.ok.injEq] at h
    first
    | exact h.symm
    | exact h
  exact ⟨ls, box, ds, bt, comp, r, ofv, rfl, rfl, rfl, rfl, rfl, hpair, hcf,
    rfl, hvc⟩

theorem conf_verify_front (conf : Conf) :
    conf_verify conf = Except.error FCFC_ERR_CFG ∨
    ∃ ls box ds bt,
      verifyLabel conf.label = Except.ok ls ∧
      verifyBox conf.bsize = Except.ok box ∧
      verifyDstruct conf.dstruct = Except.ok ds ∧
      verifyBintype conf.bintype = Except.ok bt ∧
      verifyPcIds conf.pc = Except.ok () ∧
      conf_verify conf = conf_verifyRest conf ls box ds bt := by
  cases hl : verifyLabel conf.label with
  | error e =>
    left
    have he := verifyLabel_err _ _ hl
    subst he
    simp [conf_verify, hl]
  | ok ls =>
  cases hb : verifyBox conf.bsize with
  | error e =>
    left
    have he := verifyBox_err _ _ hb
    subst he
    simp [conf_verify, hl, hb]
  | ok box =>
  cases hd : verifyDstruct conf.dstruct with
  | error e =>
    left
    have he := verifyDstruct_err _ _ hd
    subst he
    simp [conf_verify, hl, hb, hd]
  | ok ds =>
  cases hbt : verifyBintype conf.bintype with
  | error e =>
    left
    have he := verifyBintype_err _ _ hbt
    subst he
    simp [conf_verify, hl, hb, hd, hbt]
  | ok bt =>
  cases hpc : verifyPcIds conf.pc with
  | error e =>
    left
    have he := verifyPcIds_err _ _ hpc
    subst he
    simp [conf_verify, hl, hb, hd, hbt, hpc]
  | ok u =>
  cases u
  right
  exact ⟨ls, box, ds, bt, rfl, rfl, rfl, rfl, rfl,
    conf_verify_eq_rest conf ls box ds bt hl hb hd hbt hpc⟩

theorem getD_irrel {α : Type} (l : List α) (i : Nat) (d d2 : α)
    (h : i < l.length) : l.getD i d = l.getD i d2 := by
  rw [List.getD_eq_getElem l d h, List.getD_eq_getElem l d2 h]

theorem badSide_false_iff (v : RVal) :
    badSide v = false ↔ v.isfinite = true ∧ v.leZero = false := by
  simp [badSide]

/-! Claim theorems. -/

/-- C1: for a configuration under the (s,mu) binning scheme with at least one
estimator and a non-empty multipole request, successful verification leaves
conf->poles a strictly increasing sequence containing exactly the distinct
requested orders, all within [0, FCFC_MAX_ELL], with npole equal to their
number; and when some requested order lies outside [0, FCFC_MAX_ELL], while
the rest of the configuration is valid (witnessed by the same configuration
with the valid request [0] verifying), conf_verify fails with the
ConfigError code. -/
theorem fcfc_C1 (conf : Conf)
    (hbt : conf.bintype = some FCFC_BIN_SMU)
    (hcf : conf.cf ≠ [])
    (hp : conf.poles ≠ []) :
    (∀ vc, conf_verify conf = Except.ok vc →
      List.Chain' (· < ·) vc.poles ∧
      (∀ x, x ∈ vc.poles ↔ x ∈ conf.poles) ∧
      vc.npole = vc.poles.length ∧
      (∀ x ∈ conf.poles, 0 ≤ x ∧ x ≤ FCFC_MAX_ELL))
  ∧ ((∃ x ∈ conf.poles, x < 0 ∨ FCFC_MAX_ELL < x) →
      ∀ vc0, conf_verify (withPoles conf [0]) = Except.ok vc0 →
        conf_verify conf = Except.error FCFC_ERR_CFG) := by
  constructor
  · intro vc hok
    obtain ⟨ls, box, ds, bt, comp, r, ofv, hl, hb, hd, hbtS, hpcS, hpair,
      hcfS, hof, hvc⟩ := conf_verify_ok_elim conf vc hok
    have hbtv : bt = FCFC_BIN_SMU := by
      have h2 := verifyBintype_smu conf.bintype hbt
      have h3 := hbtS.symm.trans h2
      simpa using h3
    obtain ⟨p, hpl, hr1, hr2⟩ := verifyCfSection_smu_poles
      (conf.ovwrite.getD DEFAULT_OVERWRITE) bt conf.cf conf.cfout conf.poles
      conf.mpout conf.wp conf.wpout r hbtv hcf hp hcfS
    obtain ⟨hps, hch, hmem, hrange⟩ := verifyPoles_ok_elim conf.poles p hpl
    subst hvc
    have hpoles : (mkVConf conf ls box ds bt comp r ofv).poles = p := by
      simp [mkVConf, hr1]
    have hnp : (mkVConf conf ls box ds bt comp r ofv).npole = p.length := by
      simp [mkVConf, hr2]
    refine ⟨?_, ?_, ?_, hrange⟩
    · rw [hpoles]
      exact hch
    · intro x
      rw [hpoles]
      exact hmem x
    · rw [hpoles, hnp]
  · intro hbad vc0 h0ok
    obtain ⟨ls, box, ds, bt, comp, r, ofv, hl, hb, hd, hbtS, hpcS, hpair,
      hcfS, hof, -⟩ := conf_verify_ok_elim (withPoles conf [0]) vc0 h0ok
    simp only [withPoles] at hl hb hd hbtS hpcS hpair hcfS hof
    have hbtv : bt = FCFC_BIN_SMU := by
      have h2 := verifyBintype_smu conf.bintype hbt
      have h3 := hbtS.symm.trans h2
      simpa using h3
    obtain ⟨hne, hopt⟩ := verifyCfSection_ok_parts
      (conf.ovwrite.getD DEFAULT_OVERWRITE) bt conf.cf conf.cfout [0]
      conf.mpout conf.wp conf.wpout r hcf hcfS
    have hbadp : verifyPoles conf.poles = Except.error FCFC_ERR_CFG :=
      verifyPoles_err_of conf.poles hbad
    have hcfbad := verifyCfSection_err_badpoles
      (conf.ovwrite.getD DEFAULT_OVERWRITE) bt conf.cf conf.cfout conf.poles
      conf.mpout conf.wp conf.wpout hbtv hcf hp hne hopt hbadp
    rw [conf_verify_eq_rest conf ls box ds bt hl hb hd hbtS hpcS]
    exact conf_verifyRest_cf_err conf ls box ds bt comp FCFC_ERR_CFG hpair
      hcfbad

/-- C1 witness: the configuration confBadPole requests the out-of-range
order 7 under (s,mu) binning with one estimator, and its repaired variant
verifies, so conf_verify rejects it with the ConfigError code. -/
theorem fcfc_C1_witness :
    conf_verify confBadPole = Except.error FCFC_ERR_CFG :=
  (fcfc_C1 confBadPole (by decide) (by decide) (by decide)).2
    ⟨7, by decide, by decide⟩ vcPole0 (by decide)

/-- C2 (spec-modelled): for every configuration whose separation-bin
specification violates the bin invariant (edges not strictly increasing,
fewer than one bin, or a non-finite or negative edge), the invocation never
reaches the pair-counting stage, and aborts with the fatal ConfigError code
whenever the rest of the configuration verifies. -/
theorem fcfc_C2 (conf : Conf) (sbins : List RVal)
    (hbad : binSpecValid sbins = false) :
    (∀ u, compute_cf_model conf sbins ≠ Except.ok u)
  ∧ ((conf_verify conf).isOk = true →
      compute_cf_model conf sbins = Except.error FCFC_ERR_CFG) := by
  have hsep : verifySepBins sbins = Except.error FCFC_ERR_CFG := by
    simp [verifySepBins, hbad]
  constructor
  · intro u hu
    unfold compute_cf_model at hu
    cases hv : conf_verify conf with
    | error e =>
      rw [hv] at hu
      exact Except.noConfusion hu
    | ok vc =>
      simp only [hv, hsep] at hu
      exact Except.noConfusion hu
  · intro hok
    cases hv : conf_verify conf with
    | error e =>
      rw [hv] at hok
      simp [Except.isOk, Except.toBool] at hok
    | ok vc =>
      unfold compute_cf_model
      simp only [hv, hsep]

/-- C2 witness: the valid configuration confOK with the decreasing bin edges
badBins aborts with the ConfigError code before counting. -/
theorem fcfc_C2_witness :
    compute_cf_model confOK badBins = Except.error FCFC_ERR_CFG :=
  (fcfc_C2 confOK badBins (by decide)).2 (by decide)

/-- C3 counterexample: the claim says a configuration providing no box
side-lengths is accepted and treated as non-periodic, but conf_verify
rejects confNoBox (identical to the passing confOK except for its empty
BOX_SIZE) with the ConfigError code. -/
theorem fcfc_C3_cex : conf_verify confNoBox = Except.error FCFC_ERR_CFG := by
  decide

/-- C3 as amended: the box specification is mandatory in this periodic-box
code: a configuration providing no box side-lengths is rejected with a
ConfigError; when a box is given, verification accepts it (a single value
being expanded to three equal side lengths) only if every side length is
finite and positive. -/
theorem fcfc_C3 (conf : Conf) :
    (conf.bsize = [] → conf_verify conf = Except.error FCFC_ERR_CFG)
  ∧ (∀ vc, conf_verify conf = Except.ok vc →
      (vc.bsize.1.isfinite = true ∧ vc.bsize.1.leZero = false) ∧
      (vc.bsize.2.1.isfinite = true ∧ vc.bsize.2.1.leZero = false) ∧
      (vc.bsize.2.2.isfinite = true ∧ vc.bsize.2.2.leZero = false) ∧
      ∀ b, conf.bsize = [b] → vc.bsize = (b, b, b)) := by
  constructor
  · intro hnil
    rcases conf_verify_front conf with hc | ⟨ls, box, ds, bt, hl, hb, hd,
      hbt, hpc, heq⟩
    · exact hc
    · exfalso
      rw [hnil, verifyBox_nil] at hb
      exact Except.noConfusion hb
  · intro vc hok
    obtain ⟨ls, box, ds, bt, comp, r, ofv, hl, hb, hd, hbtS, hpcS, hpair,
      hcfS, hof, hvc⟩ := conf_verify_ok_elim conf vc hok
    obtain ⟨h1, h2, h3, h4⟩ := verifyBox_ok conf.bsize box hb
    subst hvc
    exact ⟨(badSide_false_iff _).mp h1, (badSide_false_iff _).mp h2,
      (badSide_false_iff _).mp h3, h4⟩

/-- C3 witness: confNoBox is rejected, and the accepted confOK has its
single box value expanded to three finite positive side lengths. -/
theorem fcfc_C3_witness :
    conf_verify confNoBox = Except.error FCFC_ERR_CFG ∧
    (vcOK.bsize.1.isfinite = true ∧ vcOK.bsize.1.leZero = false) ∧
    vcOK.bsize = (f1000, f1000, f1000) :=
  ⟨(fcfc_C3 confNoBox).1 rfl,
   ((fcfc_C3 confOK).2 vcOK (by decide)).1,
   ((fcfc_C3 confOK).2 vcOK (by decide)).2.2.2 f1000 rfl⟩

/-- C4: every requested pair identifier must consist of exactly two
uppercase letters: one with a character outside that range or with a
different length makes conf_verify return the ConfigError code, and after
successful verification every identifier has that shape. -/
theorem fcfc_C4 (conf : Conf) :
    ((∃ s ∈ conf.pc, ¬(s.length = 2 ∧ ∀ c ∈ s, 'A' ≤ c ∧ c ≤ 'Z')) →
      conf_verify conf = Except.error FCFC_ERR_CFG)
  ∧ (∀ vc, conf_verify conf = Except.ok vc →
      ∀ s ∈ vc.pc, s.length = 2 ∧ ∀ c ∈ s, 'A' ≤ c ∧ c ≤ 'Z') := by
  constructor
  · rintro ⟨s, hs, hbad⟩
    rcases conf_verify_front conf with hc | ⟨ls, box, ds, bt, hl, hb, hd,
      hbt, hpc, heq⟩
    · exact hc
    · exfalso
      obtain ⟨-, hval, -⟩ := verifyPcIds_ok conf.pc hpc
      exact hbad ((validPairId_iff s).mp (hval s hs))
  · intro vc hok s hs
    obtain ⟨ls, box, ds, bt, comp, r, ofv, hl, hb, hd, hbtS, hpcS, hpair,
      hcfS, hof, hvc⟩ := conf_verify_ok_elim conf vc hok
    obtain ⟨-, hval, -⟩ := verifyPcIds_ok conf.pc hpcS
    have hs2 : s ∈ conf.pc := by
      have hpc2 : vc.pc = conf.pc := by
        rw [hvc]
        rfl
      rw [← hpc2]
      exact hs
    exact (validPairId_iff s).mp (hval s hs2)

/-- C4 witness: confBadPair requests the malformed identifier "aA" and is
rejected with the ConfigError code. -/
theorem fcfc_C4_witness :
    conf_verify confBadPair = Except.error FCFC_ERR_CFG :=
  (fcfc_C4 confBadPair).1 ⟨['a', 'A'], by decide, by decide⟩

/-- C5: a pair identifier naming a catalog label not present among the
configured labels is rejected: after successful verification every pair that
is marked for computation has both of its letters among the labels (an auto
pair matching its single letter once for each position), and when no
pair-count files are configured (so every pair is computed), a missing label
makes conf_verify return the ConfigError code. -/
theorem fcfc_C5 (conf : Conf) :
    (∀ vc, conf_verify conf = Except.ok vc →
      ∀ i, i < vc.pc.length → vc.comp_pc.getD i false = true →
        cGet (vc.pc.getD i []) 0 ∈ vc.labels ∧
        cGet (vc.pc.getD i []) 1 ∈ vc.labels)
  ∧ (conf.pcout = none →
      (∃ s ∈ conf.pc, cGet s 0 ∉ conf.label.getD [] ∨
        cGet s 1 ∉ conf.label.getD []) →
      conf_verify conf = Except.error FCFC_ERR_CFG) := by
  constructor
  · intro vc hok i hi hcomp
    obtain ⟨ls, box, ds, bt, comp, r, ofv, hl, hb, hd, hbtS, hpcS, hpair,
      hcfS, hof, hvc⟩ := conf_verify_ok_elim conf vc hok
    obtain ⟨hnodup, -⟩ := verifyLabel_ok conf.label ls hl
    have hlab : vc.labels = ls := by
      rw [hvc]
      rfl
    have hpcv : vc.pc = conf.pc := by
      rw [hvc]
      rfl
    have hcompv : vc.comp_pc = comp := by
      rw [hvc]
      rfl
    rw [hpcv] at hi
    rw [hpcv]
    rw [hlab]
    rw [← labelFound_two_iff (conf.pc.getD i []) ls hnodup]
    cases hpo : conf.pcout with
    | none =>
      rw [hpo] at hpair
      obtain ⟨hrep, hall⟩ := checkPairsNoFile_ok ls conf.pc comp hpair
      apply hall
      rw [List.getD_eq_getElem conf.pc [] hi]
      exact List.getElem_mem hi
    | some fs =>
      rw [hpo] at hpair
      simp only [pairFileStage] at hpair
      split_ifs at hpair with hfe hflen
      obtain ⟨hlen, hall⟩ := checkPairFiles_ok ls
        (conf.ovwrite.getD DEFAULT_OVERWRITE) conf.pc fs comp hpair
      rcases hall i hi with ⟨-, -, hfound⟩ | ⟨hfalse, -⟩
      · exact hfound
      · exfalso
        rw [hcompv] at hcomp
        rw [getD_irrel comp i false true (by omega)] at hcomp
        rw [hcomp] at hfalse
        exact Bool.noConfusion hfalse
  · intro hpcout hex
    rcases conf_verify_front conf with hc | ⟨ls, box, ds, bt, hl, hb, hd,
      hbt, hpc, heq⟩
    · exact hc
    · obtain ⟨hnodup, hls⟩ := verifyLabel_ok conf.label ls hl
      obtain ⟨s, hs, hmiss⟩ := hex
      have hnf : labelFound s ls ≠ 2 := by
        intro h2
        rw [labelFound_two_iff s ls hnodup, hls] at h2
        obtain ⟨m1, m2⟩ := h2
        rcases hmiss with hm | hm
        · exact hm m1
        · exact hm m2
      have hfail := checkPairsNoFile_fail ls conf.pc ⟨s, hs, hnf⟩
      rw [heq]
      refine conf_verifyRest_pair_err conf ls box ds bt FCFC_ERR_CFG ?_
      rw [hpcout]
      exact hfail

/-- C5 witness: confMissLabel computes the pair "XY" while only the label A
is configured, so conf_verify returns the ConfigError code. -/
theorem fcfc_C5_witness :
    conf_verify confMissLabel = Except.error FCFC_ERR_CFG :=
  (fcfc_C5 confMissLabel).2 rfl ⟨['X', 'Y'], by decide, by decide⟩

/-- C6 counterexample: the claim says that apart from the load condition and
the no-overwrite abort, the identifier is marked for recomputation and the
run proceeds; but for confC6, whose pair-count file exists, is readable and
not writable, with overwrite level FCFC_OVERWRITE_ALL, conf_verify aborts
with the file-error code instead of marking comp_pc[0] = true. -/
theorem fcfc_C6_cex : conf_verify confC6 = Except.error FCFC_ERR_FILE := by
  decide

/-- C6 as amended: for an output file with a configured name and a
non-negative overwrite level, check_output selects reading the existing file
(FCFC_ERR_SAVE, hence comp_pc[i] = false) exactly when the file exists, the
level is strictly between FCFC_OVERWRITE_NONE and FCFC_OVERWRITE_ALL and the
file is readable; an existing file at a level at or below
FCFC_OVERWRITE_NONE aborts with the file error; and the identifier is marked
for recomputation (code 0) exactly when the remaining permission checks pass
(file writable when it exists and is force-overwritten, directory accessible
when it does not); every other combination aborts with the file error. -/
theorem fcfc_C6 (f : OutFile) (ov : Int) (h0 : 0 ≤ ov)
    (h1 : f.nameSet = true) :
    (check_output f ov FCFC_OVERWRITE_ALL = FCFC_ERR_SAVE ↔
      f.fexists = true ∧ FCFC_OVERWRITE_NONE < ov ∧
        ov < FCFC_OVERWRITE_ALL ∧ f.readable = true)
  ∧ (f.fexists = true → ov ≤ FCFC_OVERWRITE_NONE →
      check_output f ov FCFC_OVERWRITE_ALL = FCFC_ERR_FILE)
  ∧ (check_output f ov FCFC_OVERWRITE_ALL = 0 ↔
      (f.fexists = true ∧ FCFC_OVERWRITE_ALL ≤ ov ∧ f.writable = true) ∨
      (f.fexists = false ∧ f.writableDir = true)) := by
  have hnn : ¬(ov < 0) := by omega
  have hns : ¬(f.nameSet = false) := by simp [h1]
  simp only [check_output, resolveOvwrite, if_neg hns, if_neg hnn]
  refine ⟨?_, ?_, ?_⟩ <;>
    split_ifs <;>
      simp_all [FCFC_ERR_SAVE, FCFC_ERR_FILE, FCFC_ERR_CFG,
        FCFC_OVERWRITE_NONE, FCFC_OVERWRITE_ALL] <;>
        omega

/-- C6 witness: an existing readable file under overwrite level 1 is
selected for reading. -/
theorem fcfc_C6_witness :
    check_output readFile1 1 FCFC_OVERWRITE_ALL = FCFC_ERR_SAVE :=
  ((fcfc_C6 readFile1 1 (by decide) (by decide)).1).mpr
    ⟨by decide, by decide, by decide, by decide⟩

/-- C7: duplicated catalog labels and duplicated pair identifiers are each
rejected with the ConfigError code, and after successful verification the
labels are pairwise distinct and the pair identifiers are pairwise
distinct. -/
theorem fcfc_C7 (conf : Conf) :
    (((∃ l, conf.label = some l ∧ ¬ l.Nodup) ∨
      (∃ i j, i < j ∧ j < conf.pc.length ∧
        cGet (conf.pc.getD i []) 0 = cGet (conf.pc.getD j []) 0 ∧
        cGet (conf.pc.getD i []) 1 = cGet (conf.pc.getD j []) 1)) →
      conf_verify conf = Except.error FCFC_ERR_CFG)
  ∧ (∀ vc, conf_verify conf = Except.ok vc →
      vc.labels.Nodup ∧ vc.pc.Nodup) := by
  constructor
  · intro hdup
    rcases conf_verify_front conf with hc | ⟨ls, box, ds, bt, hl, hb, hd,
      hbt, hpc, heq⟩
    · exact hc
    · exfalso
      rcases hdup with ⟨l, hlab, hnd⟩ | ⟨i, j, hij, hj, he0, he1⟩
      · obtain ⟨hnodup, hls⟩ := verifyLabel_ok conf.label ls hl
        rw [hlab] at hls
        apply hnd
        rw [show l = ls from by simpa using hls.symm]
        exact hnodup
      · obtain ⟨-, -, hnodp⟩ := verifyPcIds_ok conf.pc hpc
        have hsame : samePairId (conf.pc.getD i []) (conf.pc.getD j []) =
            true := by
          unfold samePairId
          rw [he0, he1]
          simp
        rw [hasDupPair_of_getD conf.pc i j hij hj hsame] at hnodp
        exact Bool.noConfusion hnodp
  · intro vc hok
    obtain ⟨ls, box, ds, bt, comp, r, ofv, hl, hb, hd, hbtS, hpcS, hpair,
      hcfS, hof, hvc⟩ := conf_verify_ok_elim conf vc hok
    obtain ⟨hnodup, -⟩ := verifyLabel_ok conf.label ls hl
    obtain ⟨-, -, hnodp⟩ := verifyPcIds_ok conf.pc hpcS
    have hlab : vc.labels = ls := by
      rw [hvc]
      rfl
    have hpcv : vc.pc = conf.pc := by
      rw [hvc]
      rfl
    rw [hlab, hpcv]
    exact ⟨hnodup, nodup_of_hasDupPair conf.pc hnodp⟩

/-- C7 witness: confDupPair requests the pair "AA" twice and is rejected
with the ConfigError code. -/
theorem fcfc_C7_witness :
    conf_verify confDupPair = Except.error FCFC_ERR_CFG :=
  (fcfc_C7 confDupPair).1
    (Or.inr ⟨0, 1, by decide, by decide, by decide, by decide⟩)

/-- C8: construction-time configuration errors abort the invocation: whenever
conf_verify returns an error code, load_conf returns NULL, and conversely a
configuration handed out by load_conf is exactly a fully verified one. -/
theorem fcfc_C8 (conf : Conf) (e : Int)
    (h : conf_verify conf = Except.error e) :
    load_conf (some conf) = none ∧
    ∀ (c : Conf) (vc : VConf), load_conf (some c) = some vc →
      conf_verify c = Except.ok vc := by
  constructor
  · simp [load_conf, h]
  · intro c vc hl
    simp only [load_conf] at hl
    cases hv : conf_verify c with
    | error e2 =>
      rw [hv] at hl
      exact Option.noConfusion hl
    | ok vc2 =>
      rw [hv] at hl
      have hl2 : some vc2 = some vc := hl
      rw [← Option.some.inj hl2]

/-- C8 witness: the failing configuration confNoBox makes load_conf return
NULL. -/
theorem fcfc_C8_witness : load_conf (some confNoBox) = none :=
  (fcfc_C8 confNoBox FCFC_ERR_CFG (by decide)).1

/-- C9: with CATALOG_LABEL unset, ninput is the size of the label array
itself and hence zero, the default-labeling loop assigns no labels, and
every pair identifier that must be computed fails the label-existence check:
a successful verification has an empty label list and computes no pair, and
a run without pair-count files and with at least one requested pair is
rejected with the ConfigError code. -/
theorem fcfc_C9 (conf : Conf) (hlab : conf.label = none) :
    (∀ vc, conf_verify conf = Except.ok vc →
      vc.labels = [] ∧ ∀ i, vc.comp_pc.getD i false = false)
  ∧ (conf.pcout = none → conf.pc ≠ [] →
      conf_verify conf = Except.error FCFC_ERR_CFG) := by
  constructor
  · intro vc hok
    obtain ⟨ls, box, ds, bt, comp, r, ofv, hl, hb, hd, hbtS, hpcS, hpair,
      hcfS, hof, hvc⟩ := conf_verify_ok_elim conf vc hok
    have hls : ls = [] := by
      rw [hlab] at hl
      simp only [verifyLabel, Except.ok.injEq] at hl
      first
      | exact hl.symm
      | exact hl
    subst hls
    have hlabv : vc.labels = [] := by
      rw [hvc]
      rfl
    have hcompv : vc.comp_pc = comp := by
      rw [hvc]
      rfl
    refine ⟨hlabv, ?_⟩
    intro i
    rw [hcompv]
    by_cases hi : i < comp.length
    · cases hpo : conf.pcout with
      | none =>
        rw [hpo] at hpair
        obtain ⟨hrep, hall⟩ := checkPairsNoFile_ok [] conf.pc comp hpair
        cases hpc2 : conf.pc with
        | nil =>
          rw [hpc2] at hrep
          simp only [List.length_nil, List.replicate] at hrep
          rw [hrep] at hi
          simp at hi
        | cons s ss =>
          exfalso
          have h2 := hall s (by rw [hpc2]; simp)
          rw [labelFound_nil] at h2
          exact absurd h2 (by decide)
      | some fs =>
        rw [hpo] at hpair
        simp only [pairFileStage] at hpair
        split_ifs at hpair with hfe hflen
        obtain ⟨hlen, hall⟩ := checkPairFiles_ok []
          (conf.ovwrite.getD DEFAULT_OVERWRITE) conf.pc fs comp hpair
        have hi2 : i < conf.pc.length := by omega
        rcases hall i hi2 with ⟨-, -, hfound⟩ | ⟨hfalse, -⟩
        · exfalso
          rw [labelFound_nil] at hfound
          exact absurd hfound (by decide)
        · rw [getD_irrel comp i false true hi]
          exact hfalse
    · rw [List.getD_eq_default comp false (by omega)]
  · intro hpcout hne
    rcases conf_verify_front conf with hc | ⟨ls, box, ds, bt, hl, hb, hd,
      hbt, hpc, heq⟩
    · exact hc
    · have hls : ls = [] := by
        rw [hlab] at hl
        simp only [verifyLabel, Except.ok.injEq] at hl
        first
        | exact hl.symm
        | exact hl
      subst hls
      cases hpc2 : conf.pc with
      | nil => exact absurd hpc2 hne
      | cons s ss =>
        have hnf : labelFound s [] ≠ 2 := by
          rw [labelFound_nil]
          decide
        have hfail := checkPairsNoFile_fail [] conf.pc
          ⟨s, by rw [hpc2]; simp, hnf⟩
        rw [heq]
        refine conf_verifyRest_pair_err conf [] box ds bt FCFC_ERR_CFG ?_
        rw [hpcout]
        exact hfail

/-- C9 witness: confNoLabel leaves CATALOG_LABEL unset while requesting the
pair "AA" with no pair-count files, and is rejected with the ConfigError
code even though the template documents an alphabetical default labeling. -/
theorem fcfc_C9_witness :
    conf_verify confNoLabel = Except.error FCFC_ERR_CFG :=
  (fcfc_C9 confNoLabel rfl).2 rfl (by decide)

/-- C10: the catalog-label existence check applies only to freshly counted
pairs: when check_output selects reading the pair-count file
(FCFC_ERR_SAVE), a well-formed pair identifier is accepted with
comp_pc = false even though its first letter names no configured catalog. -/
theorem fcfc_C10 (lbl s : List Char) (f : OutFile) (ov : Int)
    (hlb : verifyLabel (some lbl) = Except.ok lbl)
    (hs : validPairId s = true)
    (hmiss : cGet s 0 ∉ lbl)
    (hsave : check_output f ov FCFC_OVERWRITE_ALL = FCFC_ERR_SAVE) :
    ∃ vc, conf_verify (c10conf lbl s f ov) = Except.ok vc ∧
      vc.comp_pc = [false] ∧ cGet s 0 ∉ vc.labels := by
  have hnz : ¬(check_output f ov FCFC_OVERWRITE_ALL = 0) := by
    rw [hsave]
    decide
  have hpf : checkPairFiles lbl ov [s] [f] = Except.ok [false] := by
    simp only [checkPairFiles, if_neg hnz, if_pos hsave]
  have hpair : pairFileStage lbl ov [s] (some [f]) = Except.ok [false] := by
    simp only [pairFileStage]
    rw [if_neg (by simp), if_neg (by simp)]
    exact hpf
  have hpcid : verifyPcIds [s] = Except.ok () := by
    simp [verifyPcIds, hs, hasDupPair]
  refine ⟨c10vconf lbl s ov, ?_, rfl, hmiss⟩
  have h1 : verifyLabel (c10conf lbl s f ov).label = Except.ok lbl := hlb
  have h2 : verifyBox (c10conf lbl s f ov).bsize =
      Except.ok (f1000, f1000, f1000) := rfl
  have h3 : verifyDstruct (c10conf lbl s f ov).dstruct = Except.ok 0 := rfl
  have h4 : verifyBintype (c10conf lbl s f ov).bintype = Except.ok 0 := rfl
  have h5 : verifyPcIds (c10conf lbl s f ov).pc = Except.ok () := hpcid
  rw [conf_verify_eq_rest (c10conf lbl s f ov) lbl (f1000, f1000, f1000) 0 0
    h1 h2 h3 h4 h5]
  have hpair2 : pairFileStage lbl
      ((c10conf lbl s f ov).ovwrite.getD DEFAULT_OVERWRITE)
      (c10conf lbl s f ov).pc (c10conf lbl s f ov).pcout =
      Except.ok [false] := hpair
  have hcf2 : verifyCfSection
      ((c10conf lbl s f ov).ovwrite.getD DEFAULT_OVERWRITE) 0
      (c10conf lbl s f ov).cf (c10conf lbl s f ov).cfout
      (c10conf lbl s f ov).poles (c10conf lbl s f ov).mpout
      (c10conf lbl s f ov).wp (c10conf lbl s f ov).wpout =
      Except.ok (0, [], 0, false) := rfl
  have hof2 : verifyOfmt (c10conf lbl s f ov).ofmt = Except.ok 0 := rfl
  simp only [conf_verifyRest, hpair2, hcf2, hof2]
  rfl

/-- C10 witness: with the single catalog label A, the pair "XY" whose
pair-count file exists and is readable under overwrite level 1 is accepted
for reading. -/
theorem fcfc_C10_witness :
    ∃ vc, conf_verify (c10conf ['A'] ['X', 'Y'] readFile1 1) =
        Except.ok vc ∧
      vc.comp_pc = [false] ∧ cGet ['X', 'Y'] 0 ∉ vc.labels :=
  fcfc_C10 ['A'] ['X', 'Y'] readFile1 1 (by decide) (by decide) (by decide)
    (by decide)
